import Mathlib

/-!
Shallow embedding of `src/polygons.py`: regular polygons inscribed in a
circle (`Polygon`), the ascending sequence of polygons with edge counts
3..m (`Polygons`), its iterator (`PolygonsIterator`), and the
max-efficiency query.  Python ints are modelled as `ℤ`, Python floats as
`ℝ`, raised exceptions as `Except PyErr`.
-/

open Real

/-- The two exception kinds the module can raise: `ValueError` at
construction time and `IndexError` from list indexing. -/
inductive PyErr where
  | valueError : String → PyErr
  | indexError : PyErr
deriving DecidableEq

/-- A regular polygon: `_n` vertices/edges, circumradius `_R`.
Mirrors the attribute state set by `Polygon.__init__`. -/
structure Polygon where
  n : ℤ
  R : ℝ

/-- `Polygon.__init__`: raises `ValueError` when `n < 3`, otherwise
stores `n` and `R`. -/
def Polygon.make (n : ℤ) (R : ℝ) : Except PyErr Polygon :=
  if n < 3 then .error (.valueError "Polygon must have at least 3 vertices.")
  else .ok ⟨n, R⟩

/-- `Polygon.count_vertices`. -/
def Polygon.count_vertices (p : Polygon) : ℤ := p.n

/-- `Polygon.count_edges`. -/
def Polygon.count_edges (p : Polygon) : ℤ := p.n

/-- `Polygon.circumradius`. -/
def Polygon.circumradius (p : Polygon) : ℝ := p.R

/-- `Polygon.interior_angle`: `(n - 2) * 180 / n` (Python true division). -/
noncomputable def Polygon.interior_angle (p : Polygon) : ℝ :=
  ((p.n : ℝ) - 2) * 180 / (p.n : ℝ)

/-- `Polygon.side_length`: `2 * R * sin(pi / n)`. -/
noncomputable def Polygon.side_length (p : Polygon) : ℝ :=
  2 * p.R * Real.sin (π / (p.n : ℝ))

/-- `Polygon.apothem`: `R * cos(pi / n)`. -/
noncomputable def Polygon.apothem (p : Polygon) : ℝ :=
  p.R * Real.cos (π / (p.n : ℝ))

/-- `Polygon.area`: `n / 2 * side_length * apothem`. -/
noncomputable def Polygon.area (p : Polygon) : ℝ :=
  (p.n : ℝ) / 2 * p.side_length * p.apothem

/-- `Polygon.perimeter`: `n * side_length`. -/
noncomputable def Polygon.perimeter (p : Polygon) : ℝ :=
  (p.n : ℝ) * p.side_length

/-- An operand of a dunder comparison: either another `Polygon` instance
or a value of an unrelated type (the `isinstance` check fails). -/
inductive PyVal where
  | poly : Polygon → PyVal
  | unrelated : PyVal

open Classical in
/-- `Polygon.__eq__`: the Python bool of edge-count and circumradius
equality for another `Polygon`; `NotImplemented` (here `none`) for an
unrelated operand. -/
noncomputable def Polygon.eqPy (p : Polygon) (v : PyVal) : Option Bool :=
  match v with
  | .poly q =>
      some (decide (p.count_edges = q.count_edges ∧ p.circumradius = q.circumradius))
  | .unrelated => none

/-- `Polygon.__gt__`: the Python bool of the vertex-count comparison for
another `Polygon`; `NotImplemented` (here `none`) for an unrelated
operand. -/
def Polygon.gtPy (p : Polygon) (v : PyVal) : Option Bool :=
  match v with
  | .poly q => some (decide (p.count_vertices > q.count_vertices))
  | .unrelated => none

/-- Python `range(a, b)` as a list of integers `a, a+1, ..., b-1`. -/
def pythonRange (a b : ℤ) : List ℤ :=
  (List.range (b - a).toNat).map (fun (i : ℕ) => a + (i : ℤ))

/-- Normalisation of a Python list index: a negative index counts from
the end of a list of length `len`. -/
def pyIndex (len : ℕ) (i : ℤ) : ℤ :=
  if i < 0 then i + len else i

/-- Python list indexing `l[i]`: a negative index counts from the end;
access outside `[0, len)` after normalisation raises `IndexError`. -/
def pyListGet {α : Type} (l : List α) (i : ℤ) : Except PyErr α :=
  if 0 ≤ pyIndex l.length i then
    match l[(pyIndex l.length i).toNat]? with
    | some a => .ok a
    | none => .error .indexError
  else
    .error .indexError

/-- The polygon sequence: `Polygons.__init__` stores `m` and `R`; the
owned list is the pure function `Polygons.polys` of this state. -/
structure Polygons where
  m : ℤ
  R : ℝ

/-- `Polygons.__init__`: raises `ValueError` when `m < 3`. -/
def Polygons.make (m : ℤ) (R : ℝ) : Except PyErr Polygons :=
  if m < 3 then .error (.valueError "m must be greater than 3")
  else .ok ⟨m, R⟩

/-- `self._polygons = [Polygon(i, R) for i in range(3, m + 1)]`. -/
def Polygons.polys (s : Polygons) : List Polygon :=
  (pythonRange 3 (s.m + 1)).map (fun i => ⟨i, s.R⟩)

/-- `Polygons.__len__`: `m - 2`. -/
def Polygons.len (s : Polygons) : ℤ := s.m - 2

/-- `Polygons.__getitem__`: `self._polygons[index]`. -/
def Polygons.getItem (s : Polygons) (i : ℤ) : Except PyErr Polygon :=
  pyListGet s.polys i

/-- `PolygonsIterator.__init__` state: the list and the cursor `_index`. -/
structure PolygonsIterator where
  polygons : List Polygon
  index : ℕ

/-- `PolygonsIterator.__next__`: yields the element at `_index` and the
advanced cursor, or `none` for `StopIteration`. -/
def PolygonsIterator.next (it : PolygonsIterator) :
    Option (Polygon × PolygonsIterator) :=
  if h : it.index < it.polygons.length then
    some (it.polygons.get ⟨it.index, h⟩, ⟨it.polygons, it.index + 1⟩)
  else
    none

/-- `Polygons.__iter__`: a fresh iterator over the owned list, cursor 0. -/
def Polygons.iter (s : Polygons) : PolygonsIterator :=
  ⟨s.polys, 0⟩

/-- Everything one traversal of the iterator yields, in order, by
repeatedly calling `__next__` until `StopIteration`. -/
def PolygonsIterator.collect (it : PolygonsIterator) : List Polygon :=
  if h : it.index < it.polygons.length then
    it.polygons.get ⟨it.index, h⟩ ::
      PolygonsIterator.collect ⟨it.polygons, it.index + 1⟩
  else
    []
termination_by it.polygons.length - it.index
decreasing_by simp_wf; omega

/-- The sort key of `max_efficiency_polygon`: `p.area / p.perimeter`. -/
noncomputable def Polygon.efficiency (p : Polygon) : ℝ := p.area / p.perimeter

open Classical in
/-- `Polygons.max_efficiency_polygon`: stable sort of the owned list,
descending by `area / perimeter` (Python `sorted(..., reverse=True)`),
then element `[0]`. -/
noncomputable def Polygons.max_efficiency_polygon (s : Polygons) :
    Except PyErr Polygon :=
  pyListGet
    (s.polys.mergeSort (fun p q => decide (q.efficiency ≤ p.efficiency))) 0


/-! ### Helper lemmas about the owned list and Python indexing -/

lemma pythonRange_length (a b : ℤ) : (pythonRange a b).length = (b - a).toNat := by
  unfold pythonRange
  rw [List.length_map, List.length_range]

lemma polys_length (s : Polygons) : s.polys.length = (s.m - 2).toNat := by
  unfold Polygons.polys
  rw [List.length_map, pythonRange_length]
  omega

lemma pythonRange_getElem_lt (a b : ℤ) (j : ℕ) (h : (j : ℤ) < b - a) :
    (pythonRange a b)[j]? = some (a + (j : ℤ)) := by
  unfold pythonRange
  rw [List.getElem?_map, List.getElem?_range (by omega : j < (b - a).toNat)]
  rfl

lemma polys_getElem_lt (s : Polygons) (j : ℕ) (h : (j : ℤ) < s.m - 2) :
    s.polys[j]? = some ⟨3 + (j : ℤ), s.R⟩ := by
  unfold Polygons.polys
  rw [List.getElem?_map, pythonRange_getElem_lt 3 (s.m + 1) j (by omega)]
  rfl

lemma polys_getElem_ge (s : Polygons) (j : ℕ) (h : s.m - 2 ≤ (j : ℤ)) :
    s.polys[j]? = none := by
  have hl := polys_length s
  rw [List.getElem?_eq_none (by omega)]

lemma mem_pythonRange (a b k : ℤ) : k ∈ pythonRange a b ↔ a ≤ k ∧ k < b := by
  unfold pythonRange
  rw [List.mem_map]
  constructor
  · rintro ⟨j, hj, rfl⟩
    rw [List.mem_range] at hj
    omega
  · intro h
    exact ⟨(k - a).toNat, List.mem_range.mpr (by omega), by omega⟩

lemma mem_polys (s : Polygons) (p : Polygon) :
    p ∈ s.polys ↔ ∃ k : ℤ, 3 ≤ k ∧ k ≤ s.m ∧ p = ⟨k, s.R⟩ := by
  unfold Polygons.polys
  rw [List.mem_map]
  constructor
  · rintro ⟨k, hk, rfl⟩
    rw [mem_pythonRange] at hk
    exact ⟨k, by omega, by omega, rfl⟩
  · rintro ⟨k, h3, hm, rfl⟩
    exact ⟨k, (mem_pythonRange _ _ _).mpr ⟨by omega, by omega⟩, rfl⟩

lemma pyListGet_ok_iff_nat {α : Type} (l : List α) (j : ℕ) (p : α) :
    pyListGet l (j : ℤ) = .ok p ↔ l[j]? = some p := by
  have h1 : pyIndex l.length (j : ℤ) = (j : ℤ) := by
    unfold pyIndex
    rw [if_neg (by omega : ¬ ((j : ℤ) < 0))]
  have h2 : ((j : ℤ)).toNat = j := by omega
  unfold pyListGet
  rw [h1, h2, if_pos (by omega : (0 : ℤ) ≤ (j : ℤ))]
  cases hel : l[j]? <;> simp

lemma pyListGet_error_iff {α : Type} (l : List α) (i : ℤ) :
    (∃ e, pyListGet l i = .error e) ↔
      (i < -(l.length : ℤ) ∨ (l.length : ℤ) ≤ i) := by
  unfold pyListGet
  by_cases hi : i < 0
  · have h1 : pyIndex l.length i = i + l.length := by
      unfold pyIndex
      rw [if_pos hi]
    rw [h1]
    by_cases h0 : (0 : ℤ) ≤ i + (l.length : ℤ)
    · rw [if_pos h0]
      have hb : (i + (l.length : ℤ)).toNat < l.length := by omega
      rw [List.getElem?_eq_getElem hb]
      simp only [Except.ok.injEq]
      constructor
      · rintro ⟨e, he⟩
        exact absurd he (by simp)
      · intro h
        omega
    · rw [if_neg h0]
      constructor
      · intro _
        omega
      · intro _
        exact ⟨.indexError, rfl⟩
  · have h1 : pyIndex l.length i = i := by
      unfold pyIndex
      rw [if_neg hi]
    rw [h1, if_pos (by omega : (0 : ℤ) ≤ i)]
    by_cases hb : i < (l.length : ℤ)
    · have hb' : i.toNat < l.length := by omega
      rw [List.getElem?_eq_getElem hb']
      constructor
      · rintro ⟨e, he⟩
        exact absurd he (by simp)
      · intro h
        omega
    · rw [List.getElem?_eq_none (by omega : l.length ≤ i.toNat)]
      constructor
      · intro _
        omega
      · intro _
        exact ⟨.indexError, rfl⟩

lemma pyListGet_nonneg_ok {α : Type} (l : List α) (i : ℤ) (h0 : 0 ≤ i)
    (hl : i < (l.length : ℤ)) :
    ∃ p, pyListGet l i = .ok p ∧ l[i.toNat]? = some p := by
  have hb : i.toNat < l.length := by omega
  refine ⟨l[i.toNat], ?_, List.getElem?_eq_getElem hb⟩
  have h := (pyListGet_ok_iff_nat l i.toNat (l[i.toNat])).mpr
    (List.getElem?_eq_getElem hb)
  rwa [show ((i.toNat : ℕ) : ℤ) = i from by omega] at h

lemma pyListGet_neg_ok {α : Type} (l : List α) (k : ℤ) (h1 : 1 ≤ k)
    (h2 : k ≤ (l.length : ℤ)) :
    ∃ p, pyListGet l (-k) = .ok p ∧ l[((l.length : ℤ) - k).toNat]? = some p := by
  have hj : pyIndex l.length (-k) = (l.length : ℤ) - k := by
    unfold pyIndex
    rw [if_pos (by omega : -k < (0 : ℤ))]
    ring
  unfold pyListGet
  rw [hj, if_pos (by omega : (0 : ℤ) ≤ (l.length : ℤ) - k)]
  have hb : ((l.length : ℤ) - k).toNat < l.length := by omega
  rw [List.getElem?_eq_getElem hb]
  exact ⟨_, rfl, rfl⟩

lemma pyListGet_cons_zero {α : Type} (a : α) (t : List α) :
    pyListGet (a :: t) 0 = .ok a := by
  simp [pyListGet, pyIndex]

lemma pyListGet_no_valueError {α : Type} (l : List α) (i : ℤ) (msg : String) :
    pyListGet l i ≠ .error (.valueError msg) := by
  unfold pyListGet
  by_cases h : (0 : ℤ) ≤ pyIndex l.length i
  · rw [if_pos h]
    cases l[(pyIndex l.length i).toNat]? <;> simp
  · rw [if_neg h]
    simp

/-! ### Iterator traversal -/

lemma collect_eq_drop (l : List Polygon) : ∀ i : ℕ,
    PolygonsIterator.collect ⟨l, i⟩ = l.drop i := by
  intro i
  generalize hn : l.length - i = n
  induction n generalizing i with
  | zero =>
    rw [PolygonsIterator.collect]
    have hge : ¬ i < l.length := by omega
    rw [dif_neg hge, List.drop_eq_nil_of_le (by omega)]
  | succ k ih =>
    rw [PolygonsIterator.collect]
    have hlt : i < l.length := by omega
    rw [dif_pos hlt, ih (i + 1) (by omega)]
    simp only [List.get_eq_getElem]
    exact (List.drop_eq_getElem_cons hlt).symm

lemma collect_iter (s : Polygons) : s.iter.collect = s.polys := by
  have h := collect_eq_drop s.polys 0
  simpa [Polygons.iter] using h

lemma polys_pairwise (s : Polygons) :
    s.polys.Pairwise (fun p q => p.n < q.n) := by
  unfold Polygons.polys pythonRange
  rw [List.pairwise_map, List.pairwise_map]
  exact (List.pairwise_lt_range _).imp (by intro a b hab; simpa using by omega)

/-! ### Trigonometric facts about the efficiency ratio -/

lemma sin_pi_div_pos (n : ℤ) (h : 3 ≤ n) : 0 < Real.sin (π / (n : ℝ)) := by
  have hn : (0 : ℝ) < (n : ℝ) := by exact_mod_cast (by omega : (0 : ℤ) < n)
  have h1 : (1 : ℝ) < (n : ℝ) := by exact_mod_cast (by omega : (1 : ℤ) < n)
  exact Real.sin_pos_of_pos_of_lt_pi (by positivity) (div_lt_self Real.pi_pos h1)

lemma efficiency_closed_form (n : ℤ) (R : ℝ) (hn : 3 ≤ n) (hR : 0 < R) :
    Polygon.efficiency ⟨n, R⟩ = R * Real.cos (π / (n : ℝ)) / 2 := by
  have hs := sin_pi_div_pos n hn
  have hn0 : ((n : ℝ)) ≠ 0 := by
    have : (0 : ℝ) < (n : ℝ) := by exact_mod_cast (by omega : (0 : ℤ) < n)
    exact this.ne'
  unfold Polygon.efficiency Polygon.area Polygon.perimeter Polygon.side_length
    Polygon.apothem
  field_simp
  ring

lemma efficiency_lt (a b : ℤ) (R : ℝ) (ha : 3 ≤ a) (hab : a < b) (hR : 0 < R) :
    Polygon.efficiency ⟨a, R⟩ < Polygon.efficiency ⟨b, R⟩ := by
  have ha0 : (0 : ℝ) < (a : ℝ) := by exact_mod_cast (by omega : (0 : ℤ) < a)
  have hb0 : (0 : ℝ) < (b : ℝ) := by exact_mod_cast (by omega : (0 : ℤ) < b)
  have ha1 : (1 : ℝ) ≤ (a : ℝ) := by exact_mod_cast (by omega : (1 : ℤ) ≤ a)
  rw [efficiency_closed_form a R ha hR, efficiency_closed_form b R (by omega) hR]
  have hcos : Real.cos (π / (a : ℝ)) < Real.cos (π / (b : ℝ)) := by
    apply Real.cos_lt_cos_of_nonneg_of_le_pi
    · positivity
    · exact div_le_self Real.pi_pos.le ha1
    · exact div_lt_div_of_pos_left Real.pi_pos ha0 (by exact_mod_cast hab)
  have := mul_lt_mul_of_pos_left hcos hR
  linarith

/-! ### The max-efficiency query -/

lemma max_eff_core (s : Polygons) (h3 : 3 ≤ s.m) (hR : 0 < s.R) :
    s.max_efficiency_polygon = .ok (⟨s.m, s.R⟩ : Polygon) ∧
    ∀ q ∈ s.polys, q.efficiency ≤ Polygon.efficiency ⟨s.m, s.R⟩ := by
  have hlen : 0 < s.polys.length := by
    rw [polys_length]
    omega
  have hperm := List.mergeSort_perm s.polys
    (fun p q => decide (q.efficiency ≤ p.efficiency))
  obtain ⟨hd, tl, hS⟩ : ∃ hd tl,
      s.polys.mergeSort (fun p q => decide (q.efficiency ≤ p.efficiency)) =
        hd :: tl := by
    cases hM : s.polys.mergeSort (fun p q => decide (q.efficiency ≤ p.efficiency)) with
    | nil =>
      rw [hM] at hperm
      have hl := hperm.length_eq
      simp only [List.length_nil] at hl
      omega
    | cons a t => exact ⟨a, t, rfl⟩
  have htrans : ∀ (a b c : Polygon),
      (fun p q => decide (q.efficiency ≤ p.efficiency)) a b →
      (fun p q => decide (q.efficiency ≤ p.efficiency)) b c →
      (fun p q => decide (q.efficiency ≤ p.efficiency)) a c := by
    intro a b c hab hbc
    simp only [decide_eq_true_eq] at hab hbc ⊢
    exact hbc.trans hab
  have htotal : ∀ (a b : Polygon),
      ((fun p q => decide (q.efficiency ≤ p.efficiency)) a b ||
        (fun p q => decide (q.efficiency ≤ p.efficiency)) b a) = true := by
    intro a b
    rw [Bool.or_eq_true]
    simp only [decide_eq_true_eq]
    exact le_total b.efficiency a.efficiency
  have hsorted := List.sorted_mergeSort htrans htotal s.polys
  rw [hS] at hsorted hperm
  have hdom : ∀ q ∈ s.polys, q.efficiency ≤ hd.efficiency := by
    intro q hq
    have hq' : q ∈ hd :: tl := hperm.mem_iff.mpr hq
    rcases List.mem_cons.mp hq' with h | h
    · rw [h]
    · have := (List.pairwise_cons.mp hsorted).1 q h
      simpa only [decide_eq_true_eq] using this
  have hdmem : hd ∈ s.polys := hperm.mem_iff.mp (List.mem_cons_self hd tl)
  obtain ⟨k, hk3, hkm, hk⟩ := (mem_polys s hd).mp hdmem
  have hmmem : (⟨s.m, s.R⟩ : Polygon) ∈ s.polys :=
    (mem_polys s _).mpr ⟨s.m, by omega, le_refl _, rfl⟩
  have hkeq : k = s.m := by
    by_contra hne
    have hklt : k < s.m := by omega
    have h1 : Polygon.efficiency ⟨k, s.R⟩ < Polygon.efficiency ⟨s.m, s.R⟩ :=
      efficiency_lt k s.m s.R hk3 hklt hR
    have h2 : Polygon.efficiency ⟨s.m, s.R⟩ ≤ hd.efficiency := hdom _ hmmem
    rw [hk] at h2
    linarith
  have hdm : hd = (⟨s.m, s.R⟩ : Polygon) := by rw [hk, hkeq]
  constructor
  · unfold Polygons.max_efficiency_polygon
    rw [hS, pyListGet_cons_zero, hdm]
  · intro q hq
    have := hdom q hq
    rwa [hdm] at this

lemma getItem_last (s : Polygons) (h3 : 3 ≤ s.m) :
    s.getItem (s.len - 1) = .ok (⟨s.m, s.R⟩ : Polygon) := by
  unfold Polygons.getItem Polygons.len
  obtain ⟨p, hp, hget⟩ := pyListGet_nonneg_ok s.polys (s.m - 2 - 1) (by omega)
    (by rw [polys_length]; omega)
  have hcast : (((s.m - 2 - 1).toNat : ℕ) : ℤ) = s.m - 3 := by omega
  rw [polys_getElem_lt s (s.m - 2 - 1).toNat (by omega)] at hget
  rw [hcast] at hget
  have hpe : p = (⟨s.m, s.R⟩ : Polygon) := by
    have : (⟨3 + (s.m - 3), s.R⟩ : Polygon) = p := by
      exact Option.some.inj hget
    rw [← this]
    congr 1
    ring
  rw [← hpe]
  exact hp

/-! ### Claim theorems -/

/-- C4 counterexample: for the triangle (edge count 3) the interior angle
is exactly 60 degrees, so it does not lie in the open interval
(60, 180) claimed for all edge counts `n >= 3`. -/
theorem interior_angle_triangle_eq_60 :
    Polygon.interior_angle ⟨3, 1⟩ = 60 ∧
    ¬ (60 < Polygon.interior_angle ⟨3, 1⟩) := by
  have he : Polygon.interior_angle ⟨3, 1⟩ = 60 := by
    show (((3 : ℤ) : ℝ) - 2) * 180 / ((3 : ℤ) : ℝ) = 60
    push_cast
    norm_num
  exact ⟨he, by rw [he]; exact lt_irrefl 60⟩

/-- C4 (amended): for every polygon with edge count `n >= 3`,
`interiorAngleDegrees()` equals `(n - 2) * 180 / n`, is strictly
increasing in the edge count, and lies in the half-open interval
[60, 180): it equals 60 exactly at n = 3 and is below 180 always. -/
theorem interior_angle_contract (p : Polygon) (h : 3 ≤ p.n) :
    p.interior_angle = ((p.n : ℝ) - 2) * 180 / (p.n : ℝ) ∧
    60 ≤ p.interior_angle ∧ p.interior_angle < 180 ∧
    ∀ q : Polygon, p.n < q.n → p.interior_angle < q.interior_angle := by
  have hp0 : (0 : ℝ) < (p.n : ℝ) := by exact_mod_cast (by omega : (0 : ℤ) < p.n)
  have hp3 : (3 : ℝ) ≤ (p.n : ℝ) := by exact_mod_cast h
  refine ⟨rfl, ?_, ?_, ?_⟩
  · unfold Polygon.interior_angle
    rw [le_div_iff₀ hp0]
    nlinarith
  · unfold Polygon.interior_angle
    rw [div_lt_iff₀ hp0]
    nlinarith
  · intro q hq
    have hq0 : (0 : ℝ) < (q.n : ℝ) := by
      exact_mod_cast (by omega : (0 : ℤ) < q.n)
    have hpq : (p.n : ℝ) < (q.n : ℝ) := by exact_mod_cast hq
    unfold Polygon.interior_angle
    rw [div_lt_div_iff₀ hp0 hq0]
    nlinarith

/-- C4 witness: the square has interior angle `(4 - 2) * 180 / 4`, at
least 60, below 180, and below every interior angle of a polygon with
more edges. -/
theorem interior_angle_contract_witness :
    Polygon.interior_angle ⟨4, 1⟩ =
      (((4 : ℤ) : ℝ) - 2) * 180 / ((4 : ℤ) : ℝ) ∧
    60 ≤ Polygon.interior_angle ⟨4, 1⟩ ∧
    Polygon.interior_angle ⟨4, 1⟩ < 180 ∧
    ∀ q : Polygon, (4 : ℤ) < q.n →
      Polygon.interior_angle ⟨4, 1⟩ < q.interior_angle :=
  interior_angle_contract ⟨4, 1⟩ (by norm_num : (3 : ℤ) ≤ 4)

/-- C5: constructing a polygon fails with the `InvalidArgument` error
(`ValueError`) exactly when the edge count is below 3, constructing a
sequence fails exactly when `maxEdgeCount < 3` (edge count 2 fails,
3 succeeds), and indexed read access never raises `ValueError`. -/
theorem construction_guard (n m : ℤ) (R Rp : ℝ) (s : Polygons) (i : ℤ)
    (msg : String) :
    ((∃ e, Polygon.make n R = .error e) ↔ n < 3) ∧
    ((∃ e, Polygons.make m Rp = .error e) ↔ m < 3) ∧
    (∃ e, Polygon.make 2 R = .error e) ∧
    (∃ p, Polygon.make 3 R = .ok p) ∧
    (∃ e, Polygons.make 2 Rp = .error e) ∧
    s.getItem i ≠ .error (.valueError msg) := by
  refine ⟨?_, ?_, ?_, ?_, ?_, ?_⟩
  · unfold Polygon.make
    by_cases hn : n < 3
    · rw [if_pos hn]
      exact ⟨fun _ => hn, fun _ => ⟨_, rfl⟩⟩
    · rw [if_neg hn]
      constructor
      · rintro ⟨e, he⟩
        exact absurd he (by simp)
      · intro hc
        exact absurd hc hn
  · unfold Polygons.make
    by_cases hm : m < 3
    · rw [if_pos hm]
      exact ⟨fun _ => hm, fun _ => ⟨_, rfl⟩⟩
    · rw [if_neg hm]
      constructor
      · rintro ⟨e, he⟩
        exact absurd he (by simp)
      · intro hc
        exact absurd hc hm
  · unfold Polygon.make
    rw [if_pos (by norm_num : (2 : ℤ) < 3)]
    exact ⟨_, rfl⟩
  · unfold Polygon.make
    rw [if_neg (by norm_num : ¬ (3 : ℤ) < 3)]
    exact ⟨_, rfl⟩
  · unfold Polygons.make
    rw [if_pos (by norm_num : (2 : ℤ) < 3)]
    exact ⟨_, rfl⟩
  · exact pyListGet_no_valueError s.polys i msg

/-- C6: for `maxEdgeCount = m >= 3` the owned list has exactly `m - 2`
members (`length()` returns `m - 2`), the member at position `j` has edge
count `3 + j` (ascending, no gaps), and every member carries the shared
circumradius. -/
theorem sequence_invariant (s : Polygons) (h : 3 ≤ s.m) :
    (s.polys.length : ℤ) = s.m - 2 ∧ s.len = s.m - 2 ∧
    ∀ (j : ℕ) (p : Polygon), s.polys[j]? = some p →
      p.n = 3 + (j : ℤ) ∧ p.R = s.R := by
  refine ⟨by rw [polys_length]; omega, rfl, ?_⟩
  intro j p hp
  by_cases hj : (j : ℤ) < s.m - 2
  · rw [polys_getElem_lt s j hj] at hp
    rw [← Option.some.inj hp]
    exact ⟨rfl, rfl⟩
  · rw [polys_getElem_ge s j (by omega)] at hp
    exact absurd hp (by simp)

/-- C6 witness: the sequence for `m = 3`, `R = 1` has one member, of edge
count 3 and circumradius 1. -/
theorem sequence_invariant_witness :
    (((Polygons.mk 3 1).polys.length : ℤ) = 3 - 2) ∧
    (Polygons.mk 3 1).len = 3 - 2 ∧
    ∀ (j : ℕ) (p : Polygon), (Polygons.mk 3 1).polys[j]? = some p →
      p.n = 3 + (j : ℤ) ∧ p.R = (Polygons.mk 3 1).R :=
  sequence_invariant ⟨3, 1⟩ (by norm_num : (3 : ℤ) ≤ 3)

/-- C8: `__eq__` is reflexive and symmetric, returns `True` exactly when
both the edge count and the circumradius agree exactly, and yields
`NotImplemented` (not a bool, not an error) on an unrelated operand. -/
theorem eq_contract (p q : Polygon) :
    p.eqPy (.poly p) = some true ∧
    p.eqPy (.poly q) = q.eqPy (.poly p) ∧
    (p.eqPy (.poly q) = some true ↔
      (p.count_edges = q.count_edges ∧ p.circumradius = q.circumradius)) ∧
    p.eqPy .unrelated = none := by
  refine ⟨?_, ?_, ?_, rfl⟩
  · unfold Polygon.eqPy
    simp
  · simp only [Polygon.eqPy]
    congr 1
    exact decide_eq_decide.mpr
      ⟨fun hpq => ⟨hpq.1.symm, hpq.2.symm⟩, fun hqp => ⟨hqp.1.symm, hqp.2.symm⟩⟩
  · unfold Polygon.eqPy
    simp

/-- C9: `__gt__` returns `True` exactly when the receiver has the larger
edge count (circumradius plays no role); with the larger edge count on
the left it returns `True` and flipped it returns `False`; an unrelated
operand yields `NotImplemented`. -/
theorem gt_contract (p q : Polygon) :
    (p.gtPy (.poly q) = some true ↔ q.count_vertices < p.count_vertices) ∧
    (q.count_vertices < p.count_vertices →
      p.gtPy (.poly q) = some true ∧ q.gtPy (.poly p) = some false) ∧
    p.gtPy .unrelated = none := by
  refine ⟨?_, ?_, rfl⟩
  · unfold Polygon.gtPy
    simp
  · intro hlt
    unfold Polygon.gtPy
    unfold Polygon.count_vertices at hlt ⊢
    constructor
    · simp [hlt]
    · simp only [Option.some.injEq, decide_eq_false_iff_not]
      omega

/-- C9 witness: the square is greater than the triangle and not the
other way around. -/
theorem gt_contract_witness :
    (Polygon.mk 4 1).gtPy (.poly ⟨3, 1⟩) = some true ∧
    (Polygon.mk 3 1).gtPy (.poly ⟨4, 1⟩) = some false :=
  (gt_contract ⟨4, 1⟩ ⟨3, 1⟩).2.1 (by norm_num : (3 : ℤ) < 4)

/-- C1 counterexample: on the sequence with `m = 3`, `R = 1`, the access
`at(-1)` has a negative index yet does not fail: it returns the
triangle, contradicting "fails whenever index < 0". -/
theorem at_neg_one_no_error :
    (Polygons.mk 3 1).getItem (-1) = .ok (⟨3, 1⟩ : Polygon) ∧
    (-1 : ℤ) < 0 := by
  constructor
  · obtain ⟨p, hp, hget⟩ := pyListGet_neg_ok (Polygons.mk 3 1).polys 1
      (le_refl 1) (by rw [polys_length]; norm_num)
    have hlen : ((Polygons.mk 3 1).polys.length : ℤ) = 1 := by
      rw [polys_length]
      norm_num
    rw [hlen] at hget
    have h0 : (((1 : ℤ) - 1).toNat : ℤ) < (Polygons.mk 3 1).m - 2 := by norm_num
    rw [polys_getElem_lt _ _ h0] at hget
    have hpe : p = (⟨3, 1⟩ : Polygon) := by
      rw [← Option.some.inj hget]
      congr 1
    exact hpe ▸ hp
  · norm_num

/-- C1 (amended): indexed access `at(index)` fails with `IndexOutOfRange`
exactly when `index < -length()` or `index >= length()` (Python negative
indices are valid down to `-length()`); for `0 <= index < length()` it
returns the polygon at that zero-based position of the ascending list
without error. -/
theorem at_index_bounds (s : Polygons) (i : ℤ) (h : 3 ≤ s.m) :
    ((∃ e, s.getItem i = .error e) ↔ (i < -s.len ∨ s.len ≤ i)) ∧
    (0 ≤ i → i < s.len →
      ∃ p, s.getItem i = .ok p ∧ s.polys[i.toNat]? = some p) := by
  have hlen : (s.polys.length : ℤ) = s.len := by
    rw [polys_length]
    unfold Polygons.len
    omega
  constructor
  · unfold Polygons.getItem
    rw [pyListGet_error_iff, hlen]
  · intro h0 hi
    exact pyListGet_nonneg_ok s.polys i h0 (by omega)

/-- C1 witness: for `m = 3`, `R = 1` and index 0, the bounds
characterisation holds and the access succeeds. -/
theorem at_index_bounds_witness :
    ((∃ e, (Polygons.mk 3 1).getItem 0 = .error e) ↔
      ((0 : ℤ) < -(Polygons.mk 3 1).len ∨ (Polygons.mk 3 1).len ≤ 0)) ∧
    ((0 : ℤ) ≤ 0 → (0 : ℤ) < (Polygons.mk 3 1).len →
      ∃ p, (Polygons.mk 3 1).getItem 0 = .ok p ∧
        (Polygons.mk 3 1).polys[(0 : ℤ).toNat]? = some p) :=
  at_index_bounds ⟨3, 1⟩ 0 (by norm_num : (3 : ℤ) ≤ 3)

/-- C2: for `1 <= k <= length()`, the access `at(-k)` succeeds and
returns the polygon at position `length() - k`, whose edge count is
`maxEdgeCount + 1 - k` (so `at(-1)` returns the `maxEdgeCount` member);
an index error occurs only outside `[-length(), length())`. -/
theorem at_negative_index (s : Polygons) (k : ℤ) (h3 : 3 ≤ s.m)
    (h1 : 1 ≤ k) (h2 : k ≤ s.len) :
    (∃ p, s.getItem (-k) = .ok p ∧ s.polys[(s.len - k).toNat]? = some p ∧
      p.n = s.m + 1 - k) ∧
    (∀ i : ℤ, (∃ e, s.getItem i = .error e) → (s.len ≤ i ∨ i < -s.len)) := by
  have hlen : (s.polys.length : ℤ) = s.len := by
    rw [polys_length]
    unfold Polygons.len
    omega
  have hlen' : s.len = s.m - 2 := rfl
  constructor
  · obtain ⟨p, hp, hget⟩ := pyListGet_neg_ok s.polys k h1 (by omega)
    rw [hlen] at hget
    refine ⟨p, hp, hget, ?_⟩
    rw [polys_getElem_lt s (s.len - k).toNat (by omega)] at hget
    rw [← Option.some.inj hget]
    show 3 + (((s.len - k).toNat : ℕ) : ℤ) = s.m + 1 - k
    omega
  · intro i he
    unfold Polygons.getItem at he
    have := (pyListGet_error_iff s.polys i).mp he
    omega

/-- C2 witness: for `m = 3`, `R = 1` and `k = 1`, `at(-1)` succeeds and
returns the member with the maximal edge count, 3. -/
theorem at_negative_index_witness :
    (∃ p, (Polygons.mk 3 1).getItem (-1) = .ok p ∧
      (Polygons.mk 3 1).polys[((Polygons.mk 3 1).len - 1).toNat]? = some p ∧
      p.n = (Polygons.mk 3 1).m + 1 - 1) ∧
    (∀ i : ℤ, (∃ e, (Polygons.mk 3 1).getItem i = .error e) →
      ((Polygons.mk 3 1).len ≤ i ∨ i < -(Polygons.mk 3 1).len)) :=
  at_negative_index ⟨3, 1⟩ 1 (by norm_num : (3 : ℤ) ≤ 3) (le_refl 1)
    (by norm_num : (1 : ℤ) ≤ 3 - 2)

/-- C3: `max_efficiency_polygon` returns a member of the sequence that
maximises `area / perimeter`; that member has edge count `maxEdgeCount`
(so for `m = 10`, `R = 1` the returned polygon has edge count 10). -/
theorem max_efficiency_maximizes (s : Polygons) (h3 : 3 ≤ s.m)
    (hR : 0 < s.R) :
    ∃ p, s.max_efficiency_polygon = .ok p ∧ p ∈ s.polys ∧ p.n = s.m ∧
      ∀ q ∈ s.polys, q.efficiency ≤ p.efficiency := by
  obtain ⟨h1, h2⟩ := max_eff_core s h3 hR
  exact ⟨⟨s.m, s.R⟩, h1,
    (mem_polys s _).mpr ⟨s.m, by omega, le_refl _, rfl⟩, rfl, h2⟩

/-- C3 witness: for `m = 10`, `R = 1` the query returns the member with
edge count 10, which dominates every member's ratio. -/
theorem max_efficiency_maximizes_witness :
    ∃ p, (Polygons.mk 10 1).max_efficiency_polygon = .ok p ∧
      p ∈ (Polygons.mk 10 1).polys ∧ p.n = 10 ∧
      ∀ q ∈ (Polygons.mk 10 1).polys, q.efficiency ≤ p.efficiency :=
  max_efficiency_maximizes ⟨10, 1⟩ (by norm_num : (3 : ℤ) ≤ 10)
    (by norm_num : (0 : ℝ) < 1)

/-- C7: the sort-based query (stable descending sort by ratio, take the
first element) returns exactly the same polygon as `at(length() - 1)`,
the largest-edge-count member, for every sequence with `m >= 3` and
`R > 0`. -/
theorem max_efficiency_eq_at_last (s : Polygons) (h3 : 3 ≤ s.m)
    (hR : 0 < s.R) :
    s.max_efficiency_polygon = s.getItem (s.len - 1) ∧
    s.max_efficiency_polygon = .ok (⟨s.m, s.R⟩ : Polygon) := by
  have h1 := (max_eff_core s h3 hR).1
  have h2 := getItem_last s h3
  exact ⟨by rw [h1, h2], h1⟩

/-- C7 witness: for `m = 10`, `R = 1` the sort-based result coincides
with `at(length() - 1)` and is the edge-count-10 member. -/
theorem max_efficiency_eq_at_last_witness :
    (Polygons.mk 10 1).max_efficiency_polygon =
      (Polygons.mk 10 1).getItem ((Polygons.mk 10 1).len - 1) ∧
    (Polygons.mk 10 1).max_efficiency_polygon =
      .ok (⟨10, 1⟩ : Polygon) :=
  max_efficiency_eq_at_last ⟨10, 1⟩ (by norm_num : (3 : ℤ) ≤ 10)
    (by norm_num : (0 : ℝ) < 1)

/-- C10: `__iter__` returns a fresh cursor at position 0 over the owned
list; a full traversal yields exactly the owned ascending list (elements
agree position by position with `at(j)`), in strictly ascending edge
count, and the cursor at the end yields `StopIteration`; two successive
independent traversals both yield the full sequence. -/
theorem iteration_contract (s : Polygons) :
    s.iter = ⟨s.polys, 0⟩ ∧
    (s.iter.collect, s.iter.collect) = (s.polys, s.polys) ∧
    (∀ (j : ℕ) (p : Polygon),
      s.iter.collect[j]? = some p ↔ s.getItem (j : ℤ) = .ok p) ∧
    List.Pairwise (fun p q => p.n < q.n) s.iter.collect ∧
    PolygonsIterator.next ⟨s.polys, s.polys.length⟩ = none := by
  have hc := collect_iter s
  refine ⟨rfl, by rw [hc], ?_, ?_, ?_⟩
  · intro j p
    rw [hc]
    exact (pyListGet_ok_iff_nat s.polys j p).symm
  · rw [hc]
    exact polys_pairwise s
  · unfold PolygonsIterator.next
    exact dif_neg (by omega : ¬ s.polys.length < s.polys.length)
